import Mathlib

/-!
Verification development for the reorg plugin runtime.

This file gives a shallow embedding, in Lean, of the plugin subsystem of the
reorg repository: the per-item import loop of the Apple Notes import plugin
(`AppleNotesPlugin.Execute` / `importNote`), the host callback client
(`HostClient`, `grpcHostClient`), the plugin manager (`Manager.Load`), and the
scheduling daemon (`Daemon.schedulePlugin` / `Daemon.executePlugin`).

Modelling conventions:
* Go strings are modelled as Lean `String`; the case-mapping helpers
  (`strings.ToLower`, `strings.EqualFold`, `cases.Title`) are modelled for
  ASCII input, which is the range the code relies on.
* Go maps used by the code (`map[string]string`, the loaded-plugin map) are
  modelled as association lists with overwrite-on-insert semantics; the code
  only ever looks keys up, inserts, and deletes, so this is observationally
  faithful.
* Fallible Go calls (`(T, error)` pairs) are modelled as `Except String T`;
  a Go `(ptr, error)` pair where the pointer may be nil with a nil error is
  modelled as `Except String (Option T)`.
* External effects (process spawn/kill, host callback RPCs) are recorded in
  explicit event traces so that frame conditions ("no mutating callback is
  invoked") can be stated about runs.
* The SHA-256 content hash (`hashContent`) is kept abstract as a function
  parameter of the import environment: none of the verified properties depend
  on the internals of the digest, only on it being a fixed function of the
  content.
-/

/-! ### ASCII string helpers (strings.ToLower / EqualFold, slugify, cases.Title, truncate) -/

/-- ASCII lower-casing of a single character, as Go `strings.ToLower` acts on
ASCII input (byte range 65..90 mapped to 97..122). -/
def lcChar (c : Char) : Char :=
  if 65 ≤ c.toNat ∧ c.toNat ≤ 90 then Char.ofNat (c.toNat + 32) else c

/-- ASCII upper-casing of a single character. -/
def ucChar (c : Char) : Char :=
  if 97 ≤ c.toNat ∧ c.toNat ≤ 122 then Char.ofNat (c.toNat - 32) else c

/-- ASCII model of Go `strings.ToLower`. -/
def asciiLower (s : String) : String := String.mk (s.data.map lcChar)

theorem char_toNat_ofNat (n : Nat) (h : Nat.isValidChar n) : (Char.ofNat n).toNat = n := by
  unfold Char.ofNat
  rw [dif_pos h]
  unfold Char.ofNatAux
  simp [Char.toNat, UInt32.toNat, BitVec.toNat_ofNatLt]

/-- ASCII model of Go `strings.EqualFold`: equality after case folding. -/
def equalFold (a b : String) : Bool := asciiLower a == asciiLower b

/-- Characters kept by `slugify`: lowercase ASCII letters, digits, hyphen. -/
def isSlugChar (c : Char) : Bool :=
  (97 ≤ c.toNat && c.toNat ≤ 122) || (48 ≤ c.toNat && c.toNat ≤ 57) || c == '-'

/-- Character-list worker for `slugify`: lower-case, replace spaces by
hyphens, strip everything outside `[a-z0-9-]`. -/
def slugifyChars (l : List Char) : List Char :=
  ((l.map lcChar).map fun c => if c = ' ' then '-' else c).filter isSlugChar

/-- Model of `slugify` (internal/plugin host.go and pkg/plugin grpc.go, and of
`domain.Area.Slug` / `domain.Project.Slug`, which share the same logic). -/
def slugify (s : String) : String := String.mk (slugifyChars s.data)

/-- ASCII letter test. -/
def isAsciiLetter (c : Char) : Bool :=
  (65 ≤ c.toNat && c.toNat ≤ 90) || (97 ≤ c.toNat && c.toNat ≤ 122)

/-- Character-list worker for `titleCase`: upper-cases the first letter of each
maximal letter run and lower-cases the rest, leaving other characters as word
boundaries. The boolean tracks whether the previous character was a letter. -/
def titleCaseChars : Bool → List Char → List Char
  | _, [] => []
  | prevLetter, c :: rest =>
    let c2 := if isAsciiLetter c then (if prevLetter then lcChar c else ucChar c) else c
    c2 :: titleCaseChars (isAsciiLetter c) rest

/-- ASCII model of `cases.Title(language.English)` used by
`HostClient.FindOrCreateArea` when creating a missing area. -/
def titleCase (s : String) : String := String.mk (titleCaseChars false s.data)

/-- Model of the plugin helper `truncate(s, maxLen)`: the whole string when it
fits, otherwise the first `maxLen` characters with an ellipsis appended. -/
def truncate (s : String) (maxLen : Nat) : String :=
  if s.length ≤ maxLen then s else String.mk (s.data.take maxLen) ++ "..."

/-! ### Association-list model of Go maps -/

/-- Lookup in an association list, modelling `v, ok := m[k]`. -/
def alistLookup {β : Type} : List (String × β) → String → Option β
  | [], _ => none
  | (k', v) :: rest, k => if k' = k then some v else alistLookup rest k

/-- Insert (overwrite) into an association list, modelling `m[k] = v`. -/
def alistInsert {β : Type} : List (String × β) → String → β → List (String × β)
  | [], k, v => [(k, v)]
  | (k', v') :: rest, k, v =>
    if k' = k then (k, v) :: rest else (k', v') :: alistInsert rest k v

theorem alistLookup_insert_self {β : Type} (m : List (String × β)) (k : String) (v : β) :
    alistLookup (alistInsert m k v) k = some v := by
  induction m with
  | nil => simp [alistInsert, alistLookup]
  | cons hd tl ih =>
    obtain ⟨k', v'⟩ := hd
    by_cases h : k' = k
    · simp [alistInsert, h, alistLookup]
    · simp [alistInsert, h, alistLookup, ih]

theorem alistLookup_insert_ne {β : Type} (m : List (String × β)) (k k2 : String) (v : β)
    (h : k ≠ k2) : alistLookup (alistInsert m k v) k2 = alistLookup m k2 := by
  induction m with
  | nil => simp [alistInsert, alistLookup, h]
  | cons hd tl ih =>
    obtain ⟨k', v'⟩ := hd
    by_cases hk : k' = k
    · subst hk
      simp [alistInsert, alistLookup, h]
    · simp [alistInsert, hk, alistLookup, ih]

/-! ### Case-folding lemmas used by the find-or-create policy -/

theorem lcChar_toNat_not_upper (c : Char) :
    ¬(65 ≤ (lcChar c).toNat ∧ (lcChar c).toNat ≤ 90) := by
  unfold lcChar
  split
  · rename_i h
    have hval : Nat.isValidChar (c.toNat + 32) := Or.inl (by omega)
    rw [char_toNat_ofNat _ hval]
    omega
  · rename_i h
    exact h

theorem lcChar_idem (c : Char) : lcChar (lcChar c) = lcChar c := by
  have h := lcChar_toNat_not_upper c
  conv_lhs => rw [lcChar]
  rw [if_neg h]

theorem map_lcChar_fixed {l : List Char} (h : ∀ c ∈ l, lcChar c = c) :
    l.map lcChar = l := by
  induction l with
  | nil => rfl
  | cons hd tl ih =>
    simp only [List.map_cons, h hd (List.mem_cons_self hd tl),
      ih fun c hc => h c (List.mem_cons_of_mem hd hc)]

theorem map_lcChar_slugifyChars (l : List Char) :
    (slugifyChars l).map lcChar = slugifyChars l := by
  apply map_lcChar_fixed
  intro c hc
  unfold slugifyChars at hc
  rw [List.mem_filter] at hc
  obtain ⟨hmem, _⟩ := hc
  rw [List.mem_map] at hmem
  obtain ⟨d, hd, hdc⟩ := hmem
  rw [List.mem_map] at hd
  obtain ⟨e, _, hed⟩ := hd
  subst hed
  subst hdc
  by_cases hsp : lcChar e = ' '
  · rw [if_pos hsp]
    decide
  · rw [if_neg hsp]
    exact lcChar_idem e

theorem asciiLower_slugify (s : String) : asciiLower (slugify s) = slugify s := by
  show String.mk ((slugifyChars s.data).map lcChar) = String.mk (slugifyChars s.data)
  rw [map_lcChar_slugifyChars]

theorem slugify_of_asciiLower_eq {a b : String} (h : asciiLower a = asciiLower b) :
    slugify a = slugify b := by
  have hdata : a.data.map lcChar = b.data.map lcChar := congrArg String.data h
  show String.mk (slugifyChars a.data) = String.mk (slugifyChars b.data)
  unfold slugifyChars
  rw [hdata]

/-! ### Plugin SDK data types (pkg/plugin/interface.go) -/

/-- Plugin manifest (`plugin.Manifest`). -/
structure Manifest where
  name : String
  version : String
  description : String
  author : String
  schedule : String
  capabilities : List String
  configSchema : String
deriving DecidableEq, Repr

/-- Execution request parameters (`plugin.ExecuteParams`). -/
structure ExecuteParams where
  dryRun : Bool
  params : List (String × String)
deriving DecidableEq, Repr

/-- Execution summary counters (`plugin.ExecuteSummary`). Go `int` counters
that are only ever incremented from zero are modelled as `Nat`. -/
structure ExecuteSummary where
  itemsProcessed : Nat
  itemsImported : Nat
  itemsSkipped : Nat
  itemsFailed : Nat
  message : String
deriving DecidableEq, Repr

/-- Per-item execution record (`plugin.ExecuteItem`). -/
structure ExecuteItem where
  id : String
  name : String
  action : String
  message : String
  metadata : List (String × String)
deriving DecidableEq, Repr

/-- Execution result (`plugin.ExecuteResult`). The summary pointer is always
allocated by the plugins under study, so it is modelled as a plain field. -/
structure ExecuteResult where
  success : Bool
  error : String
  summary : ExecuteSummary
  results : List ExecuteItem
deriving DecidableEq, Repr

/-- Flattened project context rows (`plugin.ProjectContext`). -/
structure ProjectContext where
  id : String
  title : String
  area : String
deriving DecidableEq, Repr

/-- AI categorization result (`plugin.CategorizeResult`). The float64
confidence is modelled as a rational; the only values the verified code ever
compares are exactly representable. -/
structure CategorizeResult where
  area : String
  areaConfidence : ℚ
  projectID : String
  projectSuggestion : String
  tags : List String
  summary : String
  isActionable : Bool
deriving DecidableEq, Repr

/-- AI-extracted task (`plugin.ExtractedTask`). -/
structure ExtractedTask where
  title : String
  description : String
  priority : String
  dueDate : String
  tags : List String
deriving DecidableEq, Repr

/-! ### Find-or-create area policy (C7) -/

/-- The slice of `domain.Area` that the find-or-create policy reads. -/
structure DArea where
  id : String
  title : String
deriving DecidableEq, Repr

/-- The match condition shared by `HostClient.FindOrCreateArea`
(`EqualFold(a.Slug(), slug) || EqualFold(a.Title, name)`, with
`a.Slug() = slugify(a.Title)`) and `grpcHostClient.FindOrCreateArea`
(`stringsEqualFold(slugify(a.Title), slug) || stringsEqualFold(a.Title, name)`). -/
def areaMatches (name : String) (a : DArea) : Bool :=
  equalFold (slugify a.title) (slugify name) || equalFold a.title name

/-- Result of a find-or-create call: either an existing area or the title the
newly created area is given. -/
inductive FindOrCreate where
  | found (a : DArea)
  | created (title : String)
deriving DecidableEq, Repr

/-- Model of `HostClient.FindOrCreateArea` (internal/plugin host.go): first
match in host iteration order, otherwise create with the title-cased name. -/
def hostFindOrCreateArea (areas : List DArea) (name : String) : FindOrCreate :=
  match areas.find? (areaMatches name) with
  | some a => FindOrCreate.found a
  | none => FindOrCreate.created (titleCase name)

/-- Model of `grpcHostClient.FindOrCreateArea` (pkg/plugin grpc.go): same match
condition, but creation uses the raw input name (`c.CreateArea(ctx, name, "", nil)`). -/
def grpcFindOrCreateArea (areas : List DArea) (name : String) : FindOrCreate :=
  match areas.find? (areaMatches name) with
  | some a => FindOrCreate.found a
  | none => FindOrCreate.created name

theorem areaMatches_iff_slug_eq (name : String) (a : DArea) :
    areaMatches name a = true ↔ slugify a.title = slugify name := by
  unfold areaMatches equalFold
  simp only [Bool.or_eq_true, beq_iff_eq]
  constructor
  · rintro (h | h)
    · rwa [asciiLower_slugify, asciiLower_slugify] at h
    · exact slugify_of_asciiLower_eq h
  · intro h
    left
    rw [asciiLower_slugify, asciiLower_slugify, h]

theorem find?_first {α : Type} (p : α → Bool) (l : List α) (a : α)
    (h : l.find? p = some a) :
    ∃ l1 l2, l = l1 ++ a :: l2 ∧ ∀ b ∈ l1, p b = false := by
  induction l with
  | nil => simp [List.find?] at h
  | cons hd tl ih =>
    by_cases hp : p hd
    · rw [List.find?_cons_of_pos _ hp] at h
      injection h with h
      subst h
      exact ⟨[], tl, rfl, by simp⟩
    · rw [List.find?_cons_of_neg _ (by simpa using hp)] at h
      obtain ⟨l1, l2, heq, hall⟩ := ih h
      refine ⟨hd :: l1, l2, by simp [heq], ?_⟩
      intro b hb
      rcases List.mem_cons.mp hb with hb | hb
      · subst hb; simpa using hp
      · exact hall b hb

/-! ### Host callback traces -/

/-- Host-Callback operations a plugin can invoke, recorded as trace events. -/
inductive HostCall where
  | getStateCall (key : String)
  | setStateCall (key : String)
  | deleteStateCall (key : String)
  | buildProjectContextCall
  | categorizeCall
  | extractTasksCall
  | listAreasCall
  | getProjectCall (id : String)
  | findOrCreateAreaCall (name : String)
  | findOrCreateProjectCall (title : String)
  | createAreaCall (title : String)
  | createProjectCall (title : String)
  | createTaskCall (title : String)
deriving DecidableEq, Repr

/-- Mutating Host-Callback operations: the four named by the dry-run contract
(CreateArea, CreateProject, CreateTask, SetState) plus the find-or-create
operations and state deletion, which may mutate host state. -/
def HostCall.isMutating : HostCall → Bool
  | HostCall.setStateCall _ => true
  | HostCall.deleteStateCall _ => true
  | HostCall.findOrCreateAreaCall _ => true
  | HostCall.findOrCreateProjectCall _ => true
  | HostCall.createAreaCall _ => true
  | HostCall.createProjectCall _ => true
  | HostCall.createTaskCall _ => true
  | _ => false

/-! ### Apple Notes import plugin: Execute (cmd/reorg-plugin-apple-notes) -/

/-- The fields of an Apple `Note` that `Execute` and `importNote` read. The
creation/modification dates are consumed earlier, by `readNotes` recency
filtering, which is outside the embedded scope (the note list is an input). -/
structure Note where
  id : String
  name : String
  plainText : String
  folder : String
deriving DecidableEq, Repr

/-- Persisted plugin `State`: last-run timestamp and the map from note ID to
content hash. Wall-clock time is modelled as a `Nat`. -/
structure PState where
  lastRun : Nat
  processedNotes : List (String × String)
deriving DecidableEq, Repr

/-- Environment for an `Execute` run of the Apple Notes plugin:
`hash` models `hashContent` (truncated SHA-256 digest, kept abstract since no
verified property depends on digest internals); `doImport` models
`p.importNote` with the host behaviour folded in, returning the outcome and
the Host-Callback trace the call makes; `now` models `time.Now()`. -/
structure ImportEnv where
  hash : String → String
  doImport : Note → Except String Unit × List HostCall
  now : Nat

/-- Accumulator of the per-note loop in `Execute` (summary counters, result
items, plugin state, host-call trace). -/
structure LoopSt where
  procd : PState
  imported : Nat
  skipped : Nat
  failed : Nat
  results : List ExecuteItem
  trace : List HostCall
deriving Repr

/-- One iteration of the per-note loop of `AppleNotesPlugin.Execute`:
skip on matching stored hash; report-only on dry run; otherwise import and
record the new hash on success or report failure. -/
def processNote (env : ImportEnv) (dryRun : Bool) (ls : LoopSt) (note : Note) : LoopSt :=
  let h := env.hash note.plainText
  if alistLookup ls.procd.processedNotes note.id = some h then
    { ls with
      skipped := ls.skipped + 1
      results := ls.results ++
        [⟨note.id, note.name, "skipped", "already imported (unchanged)", []⟩] }
  else if dryRun then
    { ls with
      imported := ls.imported + 1
      results := ls.results ++
        [⟨note.id, note.name, "imported", "", [("folder", note.folder)]⟩] }
  else
    match env.doImport note with
    | (Except.error msg, calls) =>
      { ls with
        failed := ls.failed + 1
        trace := ls.trace ++ calls
        results := ls.results ++ [⟨note.id, note.name, "failed", msg, []⟩] }
    | (Except.ok _, calls) =>
      { ls with
        procd := { ls.procd with
          processedNotes := alistInsert ls.procd.processedNotes note.id h }
        imported := ls.imported + 1
        trace := ls.trace ++ calls
        results := ls.results ++
          [⟨note.id, note.name, "imported", "", [("folder", note.folder)]⟩] }

/-- The plugin state `Execute` starts from: the stored blob when present
(`stateHelper.Get`), else the zero `State` with an empty map. -/
def loadState (stored : Option PState) : PState :=
  stored.getD { lastRun := 0, processedNotes := [] }

/-- Outcome of an `Execute` run: the returned `ExecuteResult`, the blob
persisted under the "state" key afterwards, and the Host-Callback trace. -/
structure ExecOut where
  result : ExecuteResult
  stored : Option PState
  trace : List HostCall
deriving Repr

/-- Model of `AppleNotesPlugin.Execute` from state load onward (the earlier
steps - duration parsing, AppleScript read, folder filtering - only shape the
`notes` input or error out before any item is processed). -/
def executeApple (env : ImportEnv) (stored : Option PState) (notes : List Note)
    (params : ExecuteParams) : ExecOut :=
  let init : LoopSt :=
    { procd := loadState stored
      imported := 0
      skipped := 0
      failed := 0
      results := []
      trace := [HostCall.getStateCall "state", HostCall.buildProjectContextCall] }
  let fin := notes.foldl (processNote env params.dryRun) init
  { result :=
      { success := true
        error := ""
        summary :=
          { itemsProcessed := notes.length
            itemsImported := fin.imported
            itemsSkipped := fin.skipped
            itemsFailed := fin.failed
            message := "Processed " ++ toString notes.length ++ " notes from Apple Notes" }
        results := fin.results }
    stored := if params.dryRun then stored else some { fin.procd with lastRun := env.now }
    trace := fin.trace ++ (if params.dryRun then [] else [HostCall.setStateCall "state"]) }

/-! ### Static characterization of the loop (used on runs whose note IDs are distinct) -/

/-- Whether the stored hash for a note matches its current content hash
(the skip condition of the loop). -/
def hashMatched (env : ImportEnv) (st : PState) (n : Note) : Prop :=
  alistLookup st.processedNotes n.id = some (env.hash n.plainText)

instance (env : ImportEnv) (st : PState) (n : Note) : Decidable (hashMatched env st n) := by
  unfold hashMatched
  infer_instance

/-- The `ExecuteItem` the loop produces for a note, as a function of the
initial state (valid when note IDs are pairwise distinct). -/
def staticItem (env : ImportEnv) (dryRun : Bool) (st : PState) (n : Note) : ExecuteItem :=
  if hashMatched env st n then
    ⟨n.id, n.name, "skipped", "already imported (unchanged)", []⟩
  else if dryRun then
    ⟨n.id, n.name, "imported", "", [("folder", n.folder)]⟩
  else
    match (env.doImport n).1 with
    | Except.error msg => ⟨n.id, n.name, "failed", msg, []⟩
    | Except.ok _ => ⟨n.id, n.name, "imported", "", [("folder", n.folder)]⟩

/-- The Host-Callback calls the loop makes for a note. -/
def staticTrace (env : ImportEnv) (dryRun : Bool) (st : PState) (n : Note) : List HostCall :=
  if hashMatched env st n then []
  else if dryRun then []
  else (env.doImport n).2

/-- Whether the loop records a new hash for a note (non-matching, wet run, and
the import succeeded). -/
def staticInserted (env : ImportEnv) (dryRun : Bool) (st : PState) (n : Note) : Prop :=
  ¬hashMatched env st n ∧ dryRun = false ∧ ∃ u, (env.doImport n).1 = Except.ok u

instance (env : ImportEnv) (dryRun : Bool) (st : PState) (n : Note) :
    Decidable (staticInserted env dryRun st n) := by
  unfold staticInserted
  have : Decidable (∃ u, (env.doImport n).1 = Except.ok u) := by
    match h : (env.doImport n).1 with
    | Except.ok u => exact isTrue ⟨u, rfl⟩
    | Except.error e => exact isFalse (by simp [h])
  infer_instance

theorem processNote_static (env : ImportEnv) (dry : Bool) (ls : LoopSt) (st : PState) (n : Note)
    (hagree : alistLookup ls.procd.processedNotes n.id = alistLookup st.processedNotes n.id) :
    processNote env dry ls n =
      { procd := { ls.procd with
          processedNotes :=
            if staticInserted env dry st n then
              alistInsert ls.procd.processedNotes n.id (env.hash n.plainText)
            else ls.procd.processedNotes }
        imported := ls.imported + (if (staticItem env dry st n).action == "imported" then 1 else 0)
        skipped := ls.skipped + (if (staticItem env dry st n).action == "skipped" then 1 else 0)
        failed := ls.failed + (if (staticItem env dry st n).action == "failed" then 1 else 0)
        results := ls.results ++ [staticItem env dry st n]
        trace := ls.trace ++ staticTrace env dry st n } := by
  by_cases hm : hashMatched env st n
  · have hc : alistLookup ls.procd.processedNotes n.id = some (env.hash n.plainText) := by
      rw [hagree]; exact hm
    simp [processNote, hc, staticItem, staticTrace, staticInserted, hm]
  · have hc : ¬(alistLookup ls.procd.processedNotes n.id = some (env.hash n.plainText)) := by
      rw [hagree]; exact hm
    cases dry with
    | true => simp [processNote, hc, staticItem, staticTrace, staticInserted, hm]
    | false =>
      rcases hdo : env.doImport n with ⟨out, calls⟩
      cases out with
      | error msg => simp [processNote, hc, hm, hdo, staticItem, staticTrace, staticInserted]
      | ok u => simp [processNote, hc, hm, hdo, staticItem, staticTrace, staticInserted]

theorem staticInserted_congr (env : ImportEnv) (dry : Bool) (st st2 : PState) (n : Note)
    (h : alistLookup st.processedNotes n.id = alistLookup st2.processedNotes n.id) :
    staticInserted env dry st n ↔ staticInserted env dry st2 n := by
  unfold staticInserted hashMatched
  rw [h]

theorem foldl_processNote_spec (env : ImportEnv) (dry : Bool) :
    ∀ (notes : List Note) (ls : LoopSt) (st : PState),
      (notes.map Note.id).Nodup →
      (∀ n ∈ notes, alistLookup ls.procd.processedNotes n.id = alistLookup st.processedNotes n.id) →
      (notes.foldl (processNote env dry) ls).results =
          ls.results ++ notes.map (staticItem env dry st)
      ∧ (notes.foldl (processNote env dry) ls).imported =
          ls.imported + notes.countP (fun n => (staticItem env dry st n).action == "imported")
      ∧ (notes.foldl (processNote env dry) ls).skipped =
          ls.skipped + notes.countP (fun n => (staticItem env dry st n).action == "skipped")
      ∧ (notes.foldl (processNote env dry) ls).failed =
          ls.failed + notes.countP (fun n => (staticItem env dry st n).action == "failed")
      ∧ (notes.foldl (processNote env dry) ls).trace =
          ls.trace ++ (notes.map (staticTrace env dry st)).flatten := by
  intro notes
  induction notes with
  | nil => intro ls st _ _; simp
  | cons n ns ih =>
    intro ls st hnd hagree
    have hstep := processNote_static env dry ls st n (hagree n (List.mem_cons_self n ns))
    rw [List.map_cons] at hnd
    have hnid : n.id ∉ ns.map Note.id := (List.nodup_cons.mp hnd).1
    have hndtl : (ns.map Note.id).Nodup := (List.nodup_cons.mp hnd).2
    have hagreetl : ∀ m ∈ ns,
        alistLookup (processNote env dry ls n).procd.processedNotes m.id =
          alistLookup st.processedNotes m.id := by
      intro m hm
      rw [hstep]
      by_cases hins : staticInserted env dry st n
      · have hne : n.id ≠ m.id := by
          intro hcontra
          exact hnid (hcontra ▸ List.mem_map_of_mem Note.id hm)
        simp only [if_pos hins]
        rw [alistLookup_insert_ne _ _ _ _ hne]
        exact hagree m (List.mem_cons_of_mem n hm)
      · simp only [if_neg hins]
        exact hagree m (List.mem_cons_of_mem n hm)
    obtain ⟨hres, himp, hskip, hfail, htr⟩ := ih (processNote env dry ls n) st hndtl hagreetl
    refine ⟨?_, ?_, ?_, ?_, ?_⟩
    · rw [List.foldl_cons, hres, hstep]
      simp
    · rw [List.foldl_cons, himp, hstep]
      simp only [List.countP_cons]
      omega
    · rw [List.foldl_cons, hskip, hstep]
      simp only [List.countP_cons]
      omega
    · rw [List.foldl_cons, hfail, hstep]
      simp only [List.countP_cons]
      omega
    · rw [List.foldl_cons, htr, hstep]
      simp

theorem foldl_processNote_lookup (env : ImportEnv) (dry : Bool) :
    ∀ (notes : List Note) (ls : LoopSt) (st : PState),
      (notes.map Note.id).Nodup →
      (∀ n ∈ notes, alistLookup ls.procd.processedNotes n.id = alistLookup st.processedNotes n.id) →
      (∀ n ∈ notes,
        alistLookup (notes.foldl (processNote env dry) ls).procd.processedNotes n.id =
          if staticInserted env dry st n then some (env.hash n.plainText)
          else alistLookup ls.procd.processedNotes n.id)
      ∧ (∀ k, k ∉ notes.map Note.id →
          alistLookup (notes.foldl (processNote env dry) ls).procd.processedNotes k =
            alistLookup ls.procd.processedNotes k) := by
  intro notes
  induction notes with
  | nil => intro ls st _ _; exact ⟨by simp, by intro k _; simp⟩
  | cons n ns ih =>
    intro ls st hnd hagree
    have hstep := processNote_static env dry ls st n (hagree n (List.mem_cons_self n ns))
    rw [List.map_cons] at hnd
    have hnid : n.id ∉ ns.map Note.id := (List.nodup_cons.mp hnd).1
    have hndtl : (ns.map Note.id).Nodup := (List.nodup_cons.mp hnd).2
    have hagreetl : ∀ m ∈ ns,
        alistLookup (processNote env dry ls n).procd.processedNotes m.id =
          alistLookup st.processedNotes m.id := by
      intro m hm
      rw [hstep]
      by_cases hins : staticInserted env dry st n
      · have hne : n.id ≠ m.id := by
          intro hcontra
          exact hnid (hcontra ▸ List.mem_map_of_mem Note.id hm)
        simp only [if_pos hins]
        rw [alistLookup_insert_ne _ _ _ _ hne]
        exact hagree m (List.mem_cons_of_mem n hm)
      · simp only [if_neg hins]
        exact hagree m (List.mem_cons_of_mem n hm)
    obtain ⟨ihmem, ihout⟩ := ih (processNote env dry ls n) st hndtl hagreetl
    constructor
    · intro m hm
      rcases List.mem_cons.mp hm with hm | hm
      · subst hm
        rw [List.foldl_cons, ihout m.id hnid, hstep]
        by_cases hins : staticInserted env dry st m
        · simp only [if_pos hins]
          exact alistLookup_insert_self _ _ _
        · simp only [if_neg hins]
      · rw [List.foldl_cons]
        rw [ihmem m hm]
        by_cases hins2 : staticInserted env dry st m
        · simp only [if_pos hins2]
        · simp only [if_neg hins2]
          rw [hstep]
          by_cases hins : staticInserted env dry st n
          · have hne : n.id ≠ m.id := by
              intro hcontra
              exact hnid (hcontra ▸ List.mem_map_of_mem Note.id hm)
            simp only [if_pos hins]
            exact alistLookup_insert_ne _ _ _ _ hne
          · simp only [if_neg hins]
    · intro k hk
      have hkn : n.id ≠ k := by
        intro hcontra
        exact hk (hcontra ▸ List.mem_cons_self n.id _)
      have hkns : k ∉ ns.map Note.id := by
        intro hcontra
        exact hk (by simpa using Or.inr (by simpa using hcontra))
      rw [List.foldl_cons, ihout k hkns, hstep]
      by_cases hins : staticInserted env dry st n
      · simp only [if_pos hins]
        exact alistLookup_insert_ne _ _ _ _ hkn
      · simp only [if_neg hins]

theorem processNote_counts (env : ImportEnv) (dry : Bool) (ls : LoopSt) (n : Note) :
    (processNote env dry ls n).imported + (processNote env dry ls n).skipped +
        (processNote env dry ls n).failed = ls.imported + ls.skipped + ls.failed + 1
    ∧ (processNote env dry ls n).results.length = ls.results.length + 1 := by
  unfold processNote
  by_cases hc : alistLookup ls.procd.processedNotes n.id = some (env.hash n.plainText)
  · simp [hc]
    omega
  · cases dry with
    | true => simp [hc]; omega
    | false =>
      rcases hdo : env.doImport n with ⟨out, calls⟩
      cases out with
      | error msg => simp [hc, hdo]; omega
      | ok u => simp [hc, hdo]; omega

theorem foldl_processNote_counts (env : ImportEnv) (dry : Bool) :
    ∀ (notes : List Note) (ls : LoopSt),
      (notes.foldl (processNote env dry) ls).imported +
          (notes.foldl (processNote env dry) ls).skipped +
          (notes.foldl (processNote env dry) ls).failed =
        ls.imported + ls.skipped + ls.failed + notes.length
      ∧ (notes.foldl (processNote env dry) ls).results.length =
          ls.results.length + notes.length := by
  intro notes
  induction notes with
  | nil => intro ls; simp
  | cons n ns ih =>
    intro ls
    obtain ⟨hstep1, hstep2⟩ := processNote_counts env dry ls n
    obtain ⟨ih1, ih2⟩ := ih (processNote env dry ls n)
    rw [List.foldl_cons]
    constructor
    · rw [ih1, hstep1]
      simp
      omega
    · rw [ih2, hstep2]
      simp
      omega

theorem executeApple_spec (env : ImportEnv) (stored : Option PState) (notes : List Note)
    (params : ExecuteParams) (hnd : (notes.map Note.id).Nodup) :
    (executeApple env stored notes params).result.results =
        notes.map (staticItem env params.dryRun (loadState stored))
    ∧ (executeApple env stored notes params).result.summary.itemsImported =
        notes.countP (fun n => (staticItem env params.dryRun (loadState stored) n).action == "imported")
    ∧ (executeApple env stored notes params).result.summary.itemsSkipped =
        notes.countP (fun n => (staticItem env params.dryRun (loadState stored) n).action == "skipped")
    ∧ (executeApple env stored notes params).result.summary.itemsFailed =
        notes.countP (fun n => (staticItem env params.dryRun (loadState stored) n).action == "failed")
    ∧ (executeApple env stored notes params).trace =
        [HostCall.getStateCall "state", HostCall.buildProjectContextCall] ++
          (notes.map (staticTrace env params.dryRun (loadState stored))).flatten ++
          (if params.dryRun then [] else [HostCall.setStateCall "state"]) := by
  have hspec := foldl_processNote_spec env params.dryRun notes
    { procd := loadState stored
      imported := 0
      skipped := 0
      failed := 0
      results := []
      trace := [HostCall.getStateCall "state", HostCall.buildProjectContextCall] }
    (loadState stored) hnd (fun n _ => rfl)
  obtain ⟨h1, h2, h3, h4, h5⟩ := hspec
  unfold executeApple
  refine ⟨by simpa using h1, by simpa using h2, by simpa using h3, by simpa using h4, ?_⟩
  simp only [h5]

theorem executeApple_stored_eq (env : ImportEnv) (stored : Option PState) (notes : List Note)
    (params : ExecuteParams) :
    (executeApple env stored notes params).stored =
      if params.dryRun then stored
      else some { (notes.foldl (processNote env params.dryRun)
          { procd := loadState stored
            imported := 0
            skipped := 0
            failed := 0
            results := []
            trace := [HostCall.getStateCall "state", HostCall.buildProjectContextCall] }).procd
        with lastRun := env.now } := rfl

theorem executeApple_counts (env : ImportEnv) (stored : Option PState)
    (notes : List Note) (params : ExecuteParams) :
    (executeApple env stored notes params).result.summary.itemsImported +
        (executeApple env stored notes params).result.summary.itemsSkipped +
        (executeApple env stored notes params).result.summary.itemsFailed = notes.length
    ∧ (executeApple env stored notes params).result.results.length = notes.length
    ∧ (executeApple env stored notes params).result.summary.itemsProcessed = notes.length := by
  obtain ⟨hsum, hlen⟩ := foldl_processNote_counts env params.dryRun notes
    { procd := loadState stored
      imported := 0
      skipped := 0
      failed := 0
      results := []
      trace := [HostCall.getStateCall "state", HostCall.buildProjectContextCall] }
  unfold executeApple
  exact ⟨by simpa using hsum, by simpa using hlen, rfl⟩

/-- C8: in every `Execute` run of the Apple Notes import plugin each processed
item is assigned exactly one action, so the summary satisfies the identity
imported + skipped + failed = processed (hence also ≤ processed), exactly one
`ExecuteItem` record is appended per attempted unit of work, and the processed
count is the number of candidate items. -/
theorem execute_summary_counting_invariant (env : ImportEnv) (stored : Option PState)
    (notes : List Note) (params : ExecuteParams) :
    (executeApple env stored notes params).result.summary.itemsImported +
        (executeApple env stored notes params).result.summary.itemsSkipped +
        (executeApple env stored notes params).result.summary.itemsFailed =
      (executeApple env stored notes params).result.summary.itemsProcessed
    ∧ (executeApple env stored notes params).result.summary.itemsImported +
        (executeApple env stored notes params).result.summary.itemsSkipped +
        (executeApple env stored notes params).result.summary.itemsFailed ≤
      (executeApple env stored notes params).result.summary.itemsProcessed
    ∧ (executeApple env stored notes params).result.results.length =
        (executeApple env stored notes params).result.summary.itemsProcessed
    ∧ (executeApple env stored notes params).result.summary.itemsProcessed = notes.length := by
  obtain ⟨h1, h2, h3⟩ := executeApple_counts env stored notes params
  refine ⟨by rw [h1, h3], ?_, by rw [h2, h3], h3⟩
  rw [h1, h3]

theorem staticItem_of_matched (env : ImportEnv) (dry : Bool) (st : PState) (n : Note)
    (h : hashMatched env st n) :
    staticItem env dry st n = ⟨n.id, n.name, "skipped", "already imported (unchanged)", []⟩ := by
  unfold staticItem
  rw [if_pos h]

theorem staticTrace_of_matched (env : ImportEnv) (dry : Bool) (st : PState) (n : Note)
    (h : hashMatched env st n) : staticTrace env dry st n = [] := by
  unfold staticTrace
  rw [if_pos h]

theorem not_failed_cases (env : ImportEnv) (st : PState) (n : Note)
    (h : (staticItem env false st n).action ≠ "failed") :
    hashMatched env st n ∨ ∃ u, (env.doImport n).1 = Except.ok u := by
  by_cases hm : hashMatched env st n
  · exact Or.inl hm
  · right
    unfold staticItem at h
    rw [if_neg hm] at h
    simp only [Bool.false_eq_true, if_false] at h
    rcases h2 : (env.doImport n).1 with e | u
    · rw [h2] at h
      simp at h
    · exact ⟨u, rfl⟩

theorem flatten_eq_nil_of_all {α : Type} (L : List (List α)) (h : ∀ x ∈ L, x = []) :
    L.flatten = [] := by
  induction L with
  | nil => rfl
  | cons hd tl ih =>
    rw [List.flatten_cons, h hd (List.mem_cons_self hd tl),
      ih fun x hx => h x (List.mem_cons_of_mem hd hx)]
    rfl

/-- C1: for every item whose stored content hash equals the hash of its current
content, `Execute` marks the item skipped and performs no import; consequently,
after a wet run with no failures, a second run over the same unchanged notes
reports every item skipped, imports zero items, and makes no import callbacks. -/
theorem apple_execute_idempotent (env : ImportEnv) (stored : Option PState)
    (notes : List Note) (params : ExecuteParams)
    (hnd : (notes.map Note.id).Nodup)
    (hwet : params.dryRun = false)
    (hfailed : (executeApple env stored notes params).result.summary.itemsFailed = 0) :
    (∀ n ∈ notes, hashMatched env (loadState stored) n →
        staticItem env params.dryRun (loadState stored) n =
          ⟨n.id, n.name, "skipped", "already imported (unchanged)", []⟩ ∧
        staticTrace env params.dryRun (loadState stored) n = [])
    ∧ (executeApple env stored notes params).result.results =
        notes.map (staticItem env params.dryRun (loadState stored))
    ∧ (∀ item ∈ (executeApple env (executeApple env stored notes params).stored notes
          params).result.results, item.action = "skipped")
    ∧ (executeApple env (executeApple env stored notes params).stored notes
          params).result.summary.itemsSkipped = notes.length
    ∧ (executeApple env (executeApple env stored notes params).stored notes
          params).result.summary.itemsImported = 0
    ∧ (executeApple env (executeApple env stored notes params).stored notes
          params).trace =
        [HostCall.getStateCall "state", HostCall.buildProjectContextCall,
          HostCall.setStateCall "state"] := by
  obtain ⟨hres1, _, _, hfail1, _⟩ := executeApple_spec env stored notes params hnd
  -- every item either hash-matched or imported successfully on run 1
  have hnofail : ∀ n ∈ notes,
      hashMatched env (loadState stored) n ∨ ∃ u, (env.doImport n).1 = Except.ok u := by
    intro n hn
    apply not_failed_cases
    have hz : notes.countP
        (fun n => (staticItem env params.dryRun (loadState stored) n).action == "failed") = 0 := by
      rw [← hfail1]; exact hfailed
    rw [List.countP_eq_zero] at hz
    have := hz n hn
    rw [hwet] at this
    simpa using this
  -- after run 1 every note ID maps to its current content hash
  obtain ⟨hlook, _⟩ := foldl_processNote_lookup env params.dryRun notes
    { procd := loadState stored
      imported := 0
      skipped := 0
      failed := 0
      results := []
      trace := [HostCall.getStateCall "state", HostCall.buildProjectContextCall] }
    (loadState stored) hnd (fun n _ => rfl)
  have hallmatched : ∀ n ∈ notes,
      hashMatched env (loadState (executeApple env stored notes params).stored) n := by
    intro n hn
    have hstored : (executeApple env stored notes params).stored =
        some { (notes.foldl (processNote env params.dryRun)
            { procd := loadState stored
              imported := 0
              skipped := 0
              failed := 0
              results := []
              trace := [HostCall.getStateCall "state", HostCall.buildProjectContextCall] }).procd
          with lastRun := env.now } := by
      rw [executeApple_stored_eq, hwet]
      simp
    unfold hashMatched
    rw [hstored]
    show alistLookup (notes.foldl (processNote env params.dryRun) _).procd.processedNotes n.id =
      some (env.hash n.plainText)
    rw [hlook n hn]
    by_cases hins : staticInserted env params.dryRun (loadState stored) n
    · rw [if_pos hins]
    · rw [if_neg hins]
      rcases hnofail n hn with hm | ⟨u, hu⟩
      · exact hm
      · by_cases hm : hashMatched env (loadState stored) n
        · exact hm
        · exact absurd ⟨hm, hwet, u, hu⟩ hins
  -- run 2: everything is skipped
  obtain ⟨hres2, himp2, hskip2, _, htr2⟩ :=
    executeApple_spec env (executeApple env stored notes params).stored notes params hnd
  have hstat2 : ∀ n ∈ notes,
      staticItem env params.dryRun (loadState (executeApple env stored notes params).stored) n =
        ⟨n.id, n.name, "skipped", "already imported (unchanged)", []⟩ :=
    fun n hn => staticItem_of_matched env params.dryRun _ n (hallmatched n hn)
  refine ⟨?_, hres1, ?_, ?_, ?_, ?_⟩
  · intro n hn hm
    exact ⟨staticItem_of_matched env params.dryRun _ n hm,
      staticTrace_of_matched env params.dryRun _ n hm⟩
  · intro item hitem
    rw [hres2] at hitem
    obtain ⟨n, hn, hni⟩ := List.mem_map.mp hitem
    rw [← hni, hstat2 n hn]
  · rw [hskip2, List.countP_eq_length]
    intro n hn
    rw [hstat2 n hn]
    rfl
  · rw [himp2, List.countP_eq_zero]
    intro n hn
    rw [hstat2 n hn]
    simp
  · rw [htr2, hwet]
    have : (notes.map (staticTrace env params.dryRun
        (loadState (executeApple env stored notes params).stored))).flatten = [] := by
      apply flatten_eq_nil_of_all
      intro x hx
      obtain ⟨n, hn, hnx⟩ := List.mem_map.mp hx
      rw [← hnx]
      exact staticTrace_of_matched env params.dryRun _ n (hallmatched n hn)
    rw [hwet] at this
    simp [this]

/-- Fixture import environment: identity content hash, ever-succeeding import
oracle that calls find-or-create on the host. -/
def envAllOk : ImportEnv :=
  { hash := fun s => s
    doImport := fun n => (Except.ok (), [HostCall.categorizeCall,
      HostCall.findOrCreateAreaCall "personal", HostCall.findOrCreateProjectCall n.name])
    now := 7 }

/-- Fixture candidate notes with distinct IDs. -/
def notesTwo : List Note :=
  [⟨"note-1", "Groceries", "milk and eggs", "Notes"⟩,
   ⟨"note-2", "Trip plan", "book flights", "Travel"⟩]

theorem apple_execute_idempotent_witness :
    ((notesTwo.map Note.id).Nodup
      ∧ (⟨false, []⟩ : ExecuteParams).dryRun = false
      ∧ (executeApple envAllOk none notesTwo ⟨false, []⟩).result.summary.itemsFailed = 0)
    ∧ (executeApple envAllOk (executeApple envAllOk none notesTwo ⟨false, []⟩).stored notesTwo
          ⟨false, []⟩).result.summary.itemsSkipped = notesTwo.length
    ∧ (executeApple envAllOk (executeApple envAllOk none notesTwo ⟨false, []⟩).stored notesTwo
          ⟨false, []⟩).result.summary.itemsImported = 0 :=
  ⟨⟨by decide, rfl, by decide⟩,
    (apple_execute_idempotent envAllOk none notesTwo ⟨false, []⟩
      (by decide) rfl (by decide)).2.2.2.1,
    (apple_execute_idempotent envAllOk none notesTwo ⟨false, []⟩
      (by decide) rfl (by decide)).2.2.2.2.1⟩

theorem staticTrace_dry (env : ImportEnv) (st : PState) (n : Note) :
    staticTrace env true st n = [] := by
  unfold staticTrace
  by_cases hm : hashMatched env st n
  · rw [if_pos hm]
  · rw [if_neg hm]
    simp

theorem staticItem_dry_eq_wet_ok (env : ImportEnv) (st : PState) (n : Note)
    (h : (env.doImport n).1 = Except.ok ()) :
    staticItem env false st n = staticItem env true st n := by
  unfold staticItem
  by_cases hm : hashMatched env st n
  · rw [if_pos hm, if_pos hm]
  · rw [if_neg hm, if_neg hm, h]
    simp

theorem staticItem_dry_not_failed (env : ImportEnv) (st : PState) (n : Note) :
    ((staticItem env true st n).action == "failed") = false := by
  unfold staticItem
  by_cases hm : hashMatched env st n
  · rw [if_pos hm]
    rfl
  · rw [if_neg hm]
    simp

/-- C2: an `Execute` call with dry-run set makes no mutating Host-Callback
operation and writes no persisted state, while each non-skipped item is counted
and reported as imported; a subsequent wet `Execute` against the same
unmodified source behaves as if the dry run had never happened and (when
the import oracle succeeds) imports exactly the items the dry run reported. -/
theorem apple_execute_dryrun_pure (env : ImportEnv) (stored : Option PState)
    (notes : List Note) (params wetParams : ExecuteParams)
    (hnd : (notes.map Note.id).Nodup)
    (hdry : params.dryRun = true)
    (hwet : wetParams.dryRun = false)
    (hok : ∀ n ∈ notes, (env.doImport n).1 = Except.ok ()) :
    (executeApple env stored notes params).trace =
        [HostCall.getStateCall "state", HostCall.buildProjectContextCall]
    ∧ (∀ c ∈ (executeApple env stored notes params).trace, c.isMutating = false)
    ∧ (executeApple env stored notes params).stored = stored
    ∧ (∀ n ∈ notes, ¬hashMatched env (loadState stored) n →
        staticItem env params.dryRun (loadState stored) n =
          ⟨n.id, n.name, "imported", "", [("folder", n.folder)]⟩)
    ∧ (executeApple env stored notes params).result.summary.itemsImported +
        (executeApple env stored notes params).result.summary.itemsSkipped = notes.length
    ∧ (executeApple env stored notes params).result.summary.itemsFailed = 0
    ∧ executeApple env (executeApple env stored notes params).stored notes wetParams =
        executeApple env stored notes wetParams
    ∧ (executeApple env stored notes wetParams).result.results =
        (executeApple env stored notes params).result.results := by
  obtain ⟨hres, himp, hskip, hfail, htr⟩ := executeApple_spec env stored notes params hnd
  have htrace : (executeApple env stored notes params).trace =
      [HostCall.getStateCall "state", HostCall.buildProjectContextCall] := by
    rw [htr, hdry]
    have hnil : (notes.map (staticTrace env params.dryRun (loadState stored))).flatten = [] := by
      apply flatten_eq_nil_of_all
      intro x hx
      obtain ⟨n, _, hnx⟩ := List.mem_map.mp hx
      rw [← hnx, hdry]
      exact staticTrace_dry env (loadState stored) n
    rw [hdry] at hnil
    simp [hnil]
  have hstored : (executeApple env stored notes params).stored = stored := by
    rw [executeApple_stored_eq, hdry]
    simp
  have hfailz : (executeApple env stored notes params).result.summary.itemsFailed = 0 := by
    rw [hfail, List.countP_eq_zero]
    intro n _
    rw [hdry]
    rw [staticItem_dry_not_failed]
    simp
  refine ⟨htrace, ?_, hstored, ?_, ?_, hfailz, ?_, ?_⟩
  · intro c hc
    rw [htrace] at hc
    rcases List.mem_cons.mp hc with hc | hc
    · subst hc; rfl
    · rcases List.mem_cons.mp hc with hc | hc
      · subst hc; rfl
      · exact absurd hc (List.not_mem_nil c)
  · intro n _ hm
    unfold staticItem
    rw [if_neg hm, hdry]
    simp
  · obtain ⟨hsum, _, _⟩ := executeApple_counts env stored notes params
    omega
  · rw [hstored]
  · obtain ⟨hresw, _, _, _, _⟩ := executeApple_spec env stored notes wetParams hnd
    rw [hresw, hres]
    apply List.map_congr_left
    intro n hn
    rw [hwet, hdry]
    exact staticItem_dry_eq_wet_ok env (loadState stored) n (hok n hn)

theorem apple_execute_dryrun_pure_witness :
    ((notesTwo.map Note.id).Nodup
      ∧ (⟨true, []⟩ : ExecuteParams).dryRun = true
      ∧ (⟨false, []⟩ : ExecuteParams).dryRun = false
      ∧ ∀ n ∈ notesTwo, (envAllOk.doImport n).1 = Except.ok ())
    ∧ (executeApple envAllOk none notesTwo ⟨true, []⟩).trace =
        [HostCall.getStateCall "state", HostCall.buildProjectContextCall]
    ∧ (executeApple envAllOk none notesTwo ⟨true, []⟩).stored = none :=
  ⟨⟨by decide, rfl, rfl, fun n _ => rfl⟩,
    (apple_execute_dryrun_pure envAllOk none notesTwo ⟨true, []⟩ ⟨false, []⟩
      (by decide) rfl rfl (fun n _ => rfl)).1,
    (apple_execute_dryrun_pure envAllOk none notesTwo ⟨true, []⟩ ⟨false, []⟩
      (by decide) rfl rfl (fun n _ => rfl)).2.2.1⟩

/-- Whether a note (not skipped by hash) fails during import: the
categorization/creation oracle returns an error for it. -/
def staticFails (env : ImportEnv) (st : PState) (n : Note) : Bool :=
  !(decide (hashMatched env st n)) &&
    (match (env.doImport n).1 with
     | Except.error _ => true
     | Except.ok _ => false)

theorem staticItem_wet_failed_iff (env : ImportEnv) (st : PState) (n : Note) :
    ((staticItem env false st n).action == "failed") = staticFails env st n := by
  unfold staticItem staticFails
  by_cases hm : hashMatched env st n
  · simp [hm]
  · simp only [if_neg hm, hm, decide_False, Bool.not_false, Bool.true_and]
    rcases h2 : (env.doImport n).1 with e | u
    · simp
    · simp

theorem staticItem_action_cases (env : ImportEnv) (dry : Bool) (st : PState) (n : Note) :
    (staticItem env dry st n).action = "imported" ∨ (staticItem env dry st n).action = "skipped"
      ∨ (staticItem env dry st n).action = "failed" := by
  unfold staticItem
  by_cases hm : hashMatched env st n
  · rw [if_pos hm]
    right; left; rfl
  · rw [if_neg hm]
    cases dry with
    | true => left; rfl
    | false =>
      simp only [Bool.false_eq_true, if_false]
      rcases h2 : (env.doImport n).1 with e | u
      · right; right; rfl
      · left; rfl

/-- C4: when exactly one candidate item fails during categorization/creation,
`Execute` still processes every item (one record per item, no early
termination), reports exactly one failure, and the remaining items are all
imported or skipped. -/
theorem apple_execute_batch_resilient (env : ImportEnv) (stored : Option PState)
    (notes : List Note) (params : ExecuteParams)
    (hnd : (notes.map Note.id).Nodup)
    (hwet : params.dryRun = false)
    (hone : notes.countP (staticFails env (loadState stored)) = 1) :
    (executeApple env stored notes params).result.summary.itemsProcessed = notes.length
    ∧ (executeApple env stored notes params).result.results.length = notes.length
    ∧ (executeApple env stored notes params).result.summary.itemsFailed = 1
    ∧ (executeApple env stored notes params).result.summary.itemsImported +
        (executeApple env stored notes params).result.summary.itemsSkipped = notes.length - 1
    ∧ ∀ item ∈ (executeApple env stored notes params).result.results,
        item.action = "imported" ∨ item.action = "skipped" ∨ item.action = "failed" := by
  obtain ⟨hsum, hlen, hproc⟩ := executeApple_counts env stored notes params
  obtain ⟨hres, _, _, hfail, _⟩ := executeApple_spec env stored notes params hnd
  have hfail1 : (executeApple env stored notes params).result.summary.itemsFailed = 1 := by
    rw [hfail]
    rw [← hone]
    apply List.countP_congr
    intro n _
    rw [hwet]
    rw [staticItem_wet_failed_iff]
  refine ⟨hproc, hlen, hfail1, by omega, ?_⟩
  intro item hitem
  rw [hres] at hitem
  obtain ⟨n, hn, hni⟩ := List.mem_map.mp hitem
  rw [← hni]
  exact staticItem_action_cases env params.dryRun (loadState stored) n

/-- Fixture environment in which exactly note-2 fails to import. -/
def envOneFail : ImportEnv :=
  { hash := fun s => s
    doImport := fun n =>
      if n.id = "note-2" then (Except.error "failed to find/create area: storage down",
        [HostCall.categorizeCall, HostCall.findOrCreateAreaCall "personal"])
      else (Except.ok (), [HostCall.categorizeCall,
        HostCall.findOrCreateAreaCall "personal", HostCall.findOrCreateProjectCall n.name])
    now := 7 }

/-- Fixture list of three candidate notes with distinct IDs. -/
def notesThree : List Note :=
  [⟨"note-1", "Groceries", "milk and eggs", "Notes"⟩,
   ⟨"note-2", "Trip plan", "book flights", "Travel"⟩,
   ⟨"note-3", "Ideas", "write a plugin", "Notes"⟩]

theorem apple_execute_batch_resilient_witness :
    ((notesThree.map Note.id).Nodup
      ∧ (⟨false, []⟩ : ExecuteParams).dryRun = false
      ∧ notesThree.countP (staticFails envOneFail (loadState none)) = 1)
    ∧ (executeApple envOneFail none notesThree ⟨false, []⟩).result.summary.itemsFailed = 1
    ∧ (executeApple envOneFail none notesThree ⟨false, []⟩).result.results.length =
        notesThree.length :=
  ⟨⟨by decide, rfl, by decide⟩,
    (apple_execute_batch_resilient envOneFail none notesThree ⟨false, []⟩
      (by decide) rfl (by decide)).2.2.1,
    (apple_execute_batch_resilient envOneFail none notesThree ⟨false, []⟩
      (by decide) rfl (by decide)).2.1⟩

/-! ### Concrete model of `AppleNotesPlugin.importNote` (C5, C10) -/

/-- Task priority levels (`plugin.Priority`). -/
inductive Priority where
  | low
  | medium
  | high
  | urgent
deriving DecidableEq, Repr

/-- Priority parsing in `importNote`: lower-cased "low"/"high"/"urgent" map to
those levels, everything else defaults to medium. -/
def parseTaskPriority (s : String) : Priority :=
  if asciiLower s = "low" then Priority.low
  else if asciiLower s = "high" then Priority.high
  else if asciiLower s = "urgent" then Priority.urgent
  else Priority.medium

/-- The slice of `plugin.Area` that `importNote` reads. -/
structure PArea where
  id : String
  title : String
deriving DecidableEq, Repr

/-- The slice of `plugin.Project` that `importNote` reads. -/
structure PProject where
  id : String
  title : String
  areaID : String
deriving DecidableEq, Repr

/-- The Host-Callback surface `importNote` uses, as response functions. -/
structure HostEnv where
  categorizeWithContext : String → List ProjectContext → Except String (Option CategorizeResult)
  extractTasks : String → Except String (List ExtractedTask)
  getProject : String → Except String PProject
  findOrCreateArea : String → Except String PArea
  findOrCreateProject : String → String → String → List String → Except String PProject
  createTask : String → String → String → String → Priority → List String → Except String Unit

/-- Outcome of one `importNote` call: normal return, returned error, or a Go
runtime panic (nil pointer dereference). -/
inductive ImportOutcome where
  | ok
  | fail (msg : String)
  | panicked (msg : String)
deriving DecidableEq, Repr

/-- The deterministic default categorization `importNote` substitutes when the
AI collaborator errors (lines 222-229 of the Apple Notes plugin). -/
def fallbackCategorization (note : Note) : CategorizeResult :=
  { area := "personal"
    areaConfidence := 1/2
    projectID := ""
    projectSuggestion := note.name
    tags := []
    summary := truncate note.plainText 200
    isActionable := false }

/-- The categorization value `importNote` proceeds with: the host result on
success (which may be nil), the deterministic fallback on error. -/
def categorizationUsed (henv : HostEnv) (note : Note) (pctx : List ProjectContext) :
    Option CategorizeResult :=
  match henv.categorizeWithContext note.plainText pctx with
  | Except.error _ => some (fallbackCategorization note)
  | Except.ok r => r

/-- The task-extraction tail of `importNote`: runs only for actionable items;
extraction errors are swallowed, and each extracted task produces one
`CreateTask` callback whose errors are ignored. -/
def importTasksStep (henv : HostEnv) (note : Note) (cat : CategorizeResult) : List HostCall :=
  if cat.isActionable then
    match henv.extractTasks note.plainText with
    | Except.error _ => [HostCall.extractTasksCall]
    | Except.ok tasks =>
      if 0 < tasks.length then
        HostCall.extractTasksCall :: tasks.map fun t => HostCall.createTaskCall t.title
      else [HostCall.extractTasksCall]
  else []

/-- The part of `importNote` after the categorization is fixed: find-or-create
the area, resolve the project (AI-matched ID first, falling back to
find-or-create under the suggested or note title), then extract tasks. -/
def importAfterCat (henv : HostEnv) (note : Note) (cat : CategorizeResult) :
    ImportOutcome × List HostCall :=
  match henv.findOrCreateArea cat.area with
  | Except.error e =>
    (ImportOutcome.fail ("failed to find/create area: " ++ e),
      [HostCall.findOrCreateAreaCall cat.area])
  | Except.ok area =>
    let viaID : Option PProject × List HostCall :=
      if cat.projectID ≠ "" then
        match henv.getProject cat.projectID with
        | Except.ok p => (some p, [HostCall.getProjectCall cat.projectID])
        | Except.error _ => (none, [HostCall.getProjectCall cat.projectID])
      else (none, [])
    match viaID with
    | (some _, calls1) =>
      (ImportOutcome.ok,
        HostCall.findOrCreateAreaCall cat.area :: calls1 ++ importTasksStep henv note cat)
    | (none, calls1) =>
      let projectTitle := if cat.projectSuggestion = "" then note.name else cat.projectSuggestion
      match henv.findOrCreateProject projectTitle area.id cat.summary cat.tags with
      | Except.error e =>
        (ImportOutcome.fail ("failed to find/create project: " ++ e),
          HostCall.findOrCreateAreaCall cat.area ::
            calls1 ++ [HostCall.findOrCreateProjectCall projectTitle])
      | Except.ok _ =>
        (ImportOutcome.ok,
          HostCall.findOrCreateAreaCall cat.area ::
            calls1 ++ [HostCall.findOrCreateProjectCall projectTitle]
              ++ importTasksStep henv note cat)

/-- Model of `AppleNotesPlugin.importNote`: categorize with fallback, then
dereference the categorization (a nil result panics), then area, project and
task steps. -/
def importNote (henv : HostEnv) (note : Note) (pctx : List ProjectContext) :
    ImportOutcome × List HostCall :=
  match categorizationUsed henv note pctx with
  | none =>
    (ImportOutcome.panicked "runtime error: invalid memory address or nil pointer dereference",
      [HostCall.categorizeCall])
  | some cat =>
    ((importAfterCat henv note cat).1,
      HostCall.categorizeCall :: (importAfterCat henv note cat).2)

theorem importAfterCat_trace_head (henv : HostEnv) (note : Note) (cat : CategorizeResult) :
    ∃ rest, (importAfterCat henv note cat).2 = HostCall.findOrCreateAreaCall cat.area :: rest := by
  unfold importAfterCat
  rcases harea : henv.findOrCreateArea cat.area with e | area
  · exact ⟨[], rfl⟩
  · by_cases hpid : cat.projectID ≠ ""
    · rcases hgp : henv.getProject cat.projectID with e2 | p
      · simp only [if_pos hpid, hgp]
        rcases hfp : henv.findOrCreateProject
            (if cat.projectSuggestion = "" then note.name else cat.projectSuggestion)
            area.id cat.summary cat.tags with e3 | pr
        · exact ⟨_, rfl⟩
        · exact ⟨_, rfl⟩
      · simp only [if_pos hpid, hgp]
        exact ⟨_, rfl⟩
    · simp only [if_neg hpid]
      rcases hfp : henv.findOrCreateProject
          (if cat.projectSuggestion = "" then note.name else cat.projectSuggestion)
          area.id cat.summary cat.tags with e3 | pr
      · exact ⟨_, rfl⟩
      · exact ⟨_, rfl⟩

/-- C5: whenever the AI collaborator errors during categorization, the
categorization `importNote` uses is exactly the documented default -
area "personal", confidence 1/2, project suggestion = the note display name,
summary = the truncated content prefix, not actionable - and the import
proceeds into the area/project pipeline with that fallback instead of
aborting: the call after the categorization attempt is find-or-create of the
"personal" area. -/
theorem import_fallback_categorization (henv : HostEnv) (note : Note)
    (pctx : List ProjectContext) (e : String)
    (herr : henv.categorizeWithContext note.plainText pctx = Except.error e) :
    categorizationUsed henv note pctx = some (fallbackCategorization note)
    ∧ fallbackCategorization note =
        { area := "personal"
          areaConfidence := 1/2
          projectID := ""
          projectSuggestion := note.name
          tags := []
          summary := truncate note.plainText 200
          isActionable := false }
    ∧ importNote henv note pctx =
        ((importAfterCat henv note (fallbackCategorization note)).1,
          HostCall.categorizeCall :: (importAfterCat henv note (fallbackCategorization note)).2)
    ∧ (importNote henv note pctx).2.take 2 =
        [HostCall.categorizeCall, HostCall.findOrCreateAreaCall "personal"] := by
  have hcat : categorizationUsed henv note pctx = some (fallbackCategorization note) := by
    unfold categorizationUsed
    rw [herr]
  have himp : importNote henv note pctx =
      ((importAfterCat henv note (fallbackCategorization note)).1,
        HostCall.categorizeCall :: (importAfterCat henv note (fallbackCategorization note)).2) := by
    unfold importNote
    rw [hcat]
  refine ⟨hcat, rfl, himp, ?_⟩
  rw [himp]
  obtain ⟨rest, hrest⟩ := importAfterCat_trace_head henv note (fallbackCategorization note)
  show (HostCall.categorizeCall ::
    (importAfterCat henv note (fallbackCategorization note)).2).take 2 = _
  rw [hrest]
  rfl

/-- Fixture host environment whose AI categorization always errors. -/
def henvAIDown : HostEnv :=
  { categorizeWithContext := fun _ _ => Except.error "anthropic: api timeout"
    extractTasks := fun _ => Except.ok []
    getProject := fun id => Except.error ("project not found: " ++ id)
    findOrCreateArea := fun name => Except.ok ⟨"area-1", titleCase name⟩
    findOrCreateProject := fun title _ _ _ => Except.ok ⟨"proj-1", title, "area-1"⟩
    createTask := fun _ _ _ _ _ _ => Except.ok () }

/-- Fixture note used by the importNote witnesses. -/
def noteOne : Note := ⟨"note-1", "Groceries", "milk and eggs", "Notes"⟩

theorem import_fallback_categorization_witness :
    henvAIDown.categorizeWithContext noteOne.plainText [] =
        Except.error "anthropic: api timeout"
    ∧ categorizationUsed henvAIDown noteOne [] = some (fallbackCategorization noteOne)
    ∧ (importNote henvAIDown noteOne []).2.take 2 =
        [HostCall.categorizeCall, HostCall.findOrCreateAreaCall "personal"] :=
  ⟨rfl,
    (import_fallback_categorization henvAIDown noteOne [] "anthropic: api timeout" rfl).1,
    (import_fallback_categorization henvAIDown noteOne [] "anthropic: api timeout"
      rfl).2.2.2⟩

/-! ### Nil-LLM host behaviour (C10) -/

/-- The AI collaborator interface (`llm.Client`) as response functions. -/
structure LLMClient where
  categorizeWithContext : String → List ProjectContext → Except String CategorizeResult
  extractTasks : String → Except String (List ExtractedTask)

/-- Model of `HostClient.CategorizeWithContext` (internal/plugin host.go):
with no LLM client configured it returns nil result and nil error; otherwise
it forwards the LLM result. -/
def hostCategorizeWithContext (llm : Option LLMClient) (content : String)
    (pctx : List ProjectContext) : Except String (Option CategorizeResult) :=
  match llm with
  | none => Except.ok none
  | some l =>
    match l.categorizeWithContext content pctx with
    | Except.error e => Except.error e
    | Except.ok r => Except.ok (some r)

/-- Model of `HostClient.ExtractTasks`: with no LLM client it returns a nil
slice and nil error; otherwise it forwards the LLM result. -/
def hostExtractTasks (llm : Option LLMClient) (content : String) :
    Except String (List ExtractedTask) :=
  match llm with
  | none => Except.ok []
  | some l => l.extractTasks content

/-- C10: when the host has no LLM client, `CategorizeWithContext` and
`ExtractTasks` return nil results with nil errors, so an import plugin whose
categorization call observes `ok none` does not take its AI-fallback branch
(which fires only on a non-nil error) and instead dereferences the nil
categorization result - a runtime panic. -/
theorem nil_llm_categorize_nil_deref (henv : HostEnv) (note : Note)
    (pctx : List ProjectContext)
    (hnil : henv.categorizeWithContext note.plainText pctx = Except.ok none) :
    (∀ content pctx2, hostCategorizeWithContext none content pctx2 = Except.ok none)
    ∧ (∀ content, hostExtractTasks none content = Except.ok [])
    ∧ categorizationUsed henv note pctx = none
    ∧ importNote henv note pctx =
        (ImportOutcome.panicked "runtime error: invalid memory address or nil pointer dereference",
          [HostCall.categorizeCall]) := by
  have hcat : categorizationUsed henv note pctx = none := by
    unfold categorizationUsed
    rw [hnil]
  refine ⟨fun _ _ => rfl, fun _ => rfl, hcat, ?_⟩
  unfold importNote
  rw [hcat]

/-- Fixture host environment wired to a host with no LLM client: the
categorization callback reports success with a nil result. -/
def henvNilLLM : HostEnv :=
  { categorizeWithContext := fun content pctx => hostCategorizeWithContext none content pctx
    extractTasks := fun content => hostExtractTasks none content
    getProject := fun id => Except.error ("project not found: " ++ id)
    findOrCreateArea := fun name => Except.ok ⟨"area-1", titleCase name⟩
    findOrCreateProject := fun title _ _ _ => Except.ok ⟨"proj-1", title, "area-1"⟩
    createTask := fun _ _ _ _ _ _ => Except.ok () }

theorem nil_llm_categorize_nil_deref_witness :
    henvNilLLM.categorizeWithContext noteOne.plainText [] = Except.ok none
    ∧ importNote henvNilLLM noteOne [] =
        (ImportOutcome.panicked "runtime error: invalid memory address or nil pointer dereference",
          [HostCall.categorizeCall]) :=
  ⟨rfl, (nil_llm_categorize_nil_deref henvNilLLM noteOne [] rfl).2.2.2⟩

/-- C7 counterexample: on a miss the plugin-side `grpcHostClient.FindOrCreateArea`
creates the area with the raw input name, not the title-cased version, so the
claim as stated fails at name "personal" on an empty area list. -/
theorem grpc_find_or_create_area_not_titlecased :
    grpcFindOrCreateArea [] "personal" = FindOrCreate.created "personal"
    ∧ titleCase "personal" = "Personal"
    ∧ grpcFindOrCreateArea [] "personal" ≠ FindOrCreate.created (titleCase "personal") := by
  refine ⟨rfl, by decide, ?_⟩
  intro h
  have : "personal" = titleCase "personal" := by
    injection h
  rw [show titleCase "personal" = "Personal" by decide] at this
  exact absurd this (by decide)

/-- C7 (amended): both find-or-create implementations match an existing area
case-insensitively by slug (the code condition, slug fold-equality or title
fold-equality, is equivalent to slug equality) and return the first match in
host iteration order; on a miss the host-side `HostClient.FindOrCreateArea`
creates with the title-cased name, while the plugin-side
`grpcHostClient.FindOrCreateArea` creates with the raw input name. -/
theorem find_or_create_area_policy (areas : List DArea) (name : String) :
    (∀ a, areas.find? (areaMatches name) = some a →
        hostFindOrCreateArea areas name = FindOrCreate.found a
        ∧ grpcFindOrCreateArea areas name = FindOrCreate.found a
        ∧ areaMatches name a = true
        ∧ ∃ l1 l2, areas = l1 ++ a :: l2 ∧ ∀ b ∈ l1, areaMatches name b = false)
    ∧ (areas.find? (areaMatches name) = none →
        hostFindOrCreateArea areas name = FindOrCreate.created (titleCase name)
        ∧ grpcFindOrCreateArea areas name = FindOrCreate.created name)
    ∧ (∀ a : DArea, areaMatches name a = true ↔ slugify a.title = slugify name) := by
  refine ⟨?_, ?_, fun a => areaMatches_iff_slug_eq name a⟩
  · intro a hfind
    refine ⟨?_, ?_, List.find?_some hfind, find?_first _ _ _ hfind⟩
    · unfold hostFindOrCreateArea
      rw [hfind]
    · unfold grpcFindOrCreateArea
      rw [hfind]
  · intro hnone
    constructor
    · unfold hostFindOrCreateArea
      rw [hnone]
    · unfold grpcFindOrCreateArea
      rw [hnone]

/-- Fixture area list for the find-or-create witness. -/
def areasTwo : List DArea := [⟨"area-1", "Stuff"⟩, ⟨"area-2", "Work Notes"⟩]

theorem find_or_create_area_policy_witness :
    areasTwo.find? (areaMatches "WORK notes") = some ⟨"area-2", "Work Notes"⟩
    ∧ hostFindOrCreateArea areasTwo "WORK notes" = FindOrCreate.found ⟨"area-2", "Work Notes"⟩
    ∧ grpcFindOrCreateArea areasTwo "WORK notes" = FindOrCreate.found ⟨"area-2", "Work Notes"⟩ :=
  ⟨by decide,
    ((find_or_create_area_policy areasTwo "WORK notes").1 ⟨"area-2", "Work Notes"⟩ (by decide)).1,
    ((find_or_create_area_policy areasTwo "WORK notes").1 ⟨"area-2", "Work Notes"⟩
      (by decide)).2.1⟩

/-! ### Plugin manager: Load (internal/plugin/manager.go) -/

/-- The fields of a `LoadedPlugin` record that survive in the embedding (the
live process handle and RPC stub are process-level resources represented by
the event trace instead). -/
structure LoadedPlugin where
  name : String
  path : String
  manifest : Manifest
  config : List (String × String)
deriving DecidableEq, Repr

/-- Process-lifecycle events caused by a `Load` call. -/
inductive ProcEvent where
  | spawn
  | kill
deriving DecidableEq, Repr

/-- Outcomes of the fallible steps of `Manager.Load` after the already-loaded
check: executable resolution (`findPluginPath`), connection + handshake
(`client.Client()`), dispense + interface assertion, manifest fetch, state
directory creation, and `Configure`. -/
structure LoadEnv where
  findPath : Option String
  connect : Except String Unit
  dispense : Except String Unit
  getManifest : Except String Manifest
  mkdirState : Except String Unit
  configure : Except String Unit

/-- Result of a `Manager.Load` call: the new loaded-plugin map, the returned
error (if any), and the process events. -/
structure LoadOut where
  st : List (String × LoadedPlugin)
  res : Except String Unit
  events : List ProcEvent
deriving Repr

/-- Model of `Manager.Load`: fail fast when the name is already loaded; then
resolve the executable, spawn and handshake, dispense, fetch the manifest,
create the state directory, and configure - killing the spawned process and
registering nothing on any failure. -/
def managerLoad (st : List (String × LoadedPlugin)) (env : LoadEnv) (name : String)
    (config : List (String × String)) : LoadOut :=
  if (alistLookup st name).isSome then
    ⟨st, Except.error ("plugin " ++ name ++ " is already loaded"), []⟩
  else
    match env.findPath with
    | none => ⟨st, Except.error ("plugin " ++ name ++ " not found"), []⟩
    | some path =>
      match env.connect with
      | Except.error e =>
        ⟨st, Except.error ("failed to connect to plugin " ++ name ++ ": " ++ e),
          [ProcEvent.spawn, ProcEvent.kill]⟩
      | Except.ok _ =>
        match env.dispense with
        | Except.error e =>
          ⟨st, Except.error ("failed to dispense plugin " ++ name ++ ": " ++ e),
            [ProcEvent.spawn, ProcEvent.kill]⟩
        | Except.ok _ =>
          match env.getManifest with
          | Except.error e =>
            ⟨st, Except.error ("failed to get manifest from plugin " ++ name ++ ": " ++ e),
              [ProcEvent.spawn, ProcEvent.kill]⟩
          | Except.ok manifest =>
            match env.mkdirState with
            | Except.error e =>
              ⟨st, Except.error ("failed to create state directory: " ++ e),
                [ProcEvent.spawn, ProcEvent.kill]⟩
            | Except.ok _ =>
              match env.configure with
              | Except.error e =>
                ⟨st, Except.error ("failed to configure plugin " ++ name ++ ": " ++ e),
                  [ProcEvent.spawn, ProcEvent.kill]⟩
              | Except.ok _ =>
                ⟨alistInsert st name ⟨name, path, manifest, config⟩, Except.ok (),
                  [ProcEvent.spawn]⟩

/-- C3: loading a name that is already in the loaded set fails with the
"already loaded" error and leaves the loaded-plugin map (the existing record
included) exactly unchanged. -/
theorem manager_load_already_loaded (st : List (String × LoadedPlugin)) (env : LoadEnv)
    (name : String) (config : List (String × String))
    (h : (alistLookup st name).isSome) :
    managerLoad st env name config =
      ⟨st, Except.error ("plugin " ++ name ++ " is already loaded"), []⟩ := by
  unfold managerLoad
  rw [if_pos h]

/-- Fixture loaded-plugin record. -/
def loadedApple : LoadedPlugin :=
  ⟨"apple-notes-importer", "/plugins/reorg-plugin-apple-notes-importer",
    ⟨"apple-notes-importer", "1.0.0", "Import notes from Apple Notes into reorg",
      "reorg", "0 */15 * * * *", ["import"], ""⟩, []⟩

/-- Fixture load environment in which every step succeeds. -/
def loadEnvOk : LoadEnv :=
  ⟨some "/plugins/reorg-plugin-apple-notes-importer", Except.ok (), Except.ok (),
    Except.ok loadedApple.manifest, Except.ok (), Except.ok ()⟩

theorem manager_load_already_loaded_witness :
    (alistLookup [("apple-notes-importer", loadedApple)] "apple-notes-importer").isSome = true
    ∧ managerLoad [("apple-notes-importer", loadedApple)] loadEnvOk "apple-notes-importer" [] =
        ⟨[("apple-notes-importer", loadedApple)],
          Except.error "plugin apple-notes-importer is already loaded", []⟩ :=
  ⟨rfl,
    manager_load_already_loaded [("apple-notes-importer", loadedApple)] loadEnvOk
      "apple-notes-importer" [] rfl⟩

/-- Success test for a fallible step. -/
def stepOk {ε α : Type} : Except ε α → Bool
  | Except.ok _ => true
  | Except.error _ => false

/-- C6: whenever any step of `Manager.Load` after process spawn fails
(connect/handshake, dispense, manifest fetch, state-directory creation,
or Configure), `Load` returns an error, the spawned process is killed, and
the loaded-plugin map is exactly as before the call - no partially
initialized plugin is registered. -/
theorem manager_load_atomic_on_failure (st : List (String × LoadedPlugin)) (env : LoadEnv)
    (name : String) (config : List (String × String)) (path : String)
    (hnl : (alistLookup st name).isSome = false)
    (hpath : env.findPath = some path)
    (hfail : (stepOk env.connect && stepOk env.dispense && stepOk env.getManifest &&
        stepOk env.mkdirState && stepOk env.configure) = false) :
    (managerLoad st env name config).st = st
    ∧ (∃ msg, (managerLoad st env name config).res = Except.error msg)
    ∧ (managerLoad st env name config).events = [ProcEvent.spawn, ProcEvent.kill] := by
  unfold managerLoad
  rw [if_neg (by simp [hnl]), hpath]
  rcases hc : env.connect with e | u
  · exact ⟨rfl, ⟨_, rfl⟩, rfl⟩
  · rcases hd : env.dispense with e | u2
    · exact ⟨rfl, ⟨_, rfl⟩, rfl⟩
    · rcases hm : env.getManifest with e | m
      · exact ⟨rfl, ⟨_, rfl⟩, rfl⟩
      · rcases hmk : env.mkdirState with e | u3
        · exact ⟨rfl, ⟨_, rfl⟩, rfl⟩
        · rcases hcf : env.configure with e | u4
          · exact ⟨rfl, ⟨_, rfl⟩, rfl⟩
          · rw [hc, hd, hm, hmk, hcf] at hfail
            simp [stepOk] at hfail

/-- Fixture load environment in which `Configure` fails. -/
def loadEnvConfigureFail : LoadEnv :=
  ⟨some "/plugins/reorg-plugin-apple-notes-importer", Except.ok (), Except.ok (),
    Except.ok loadedApple.manifest, Except.ok (), Except.error "vault_path not configured"⟩

theorem manager_load_atomic_on_failure_witness :
    ((alistLookup ([] : List (String × LoadedPlugin)) "apple-notes-importer").isSome = false
      ∧ loadEnvConfigureFail.findPath = some "/plugins/reorg-plugin-apple-notes-importer"
      ∧ (stepOk loadEnvConfigureFail.connect && stepOk loadEnvConfigureFail.dispense &&
          stepOk loadEnvConfigureFail.getManifest && stepOk loadEnvConfigureFail.mkdirState &&
          stepOk loadEnvConfigureFail.configure) = false)
    ∧ (managerLoad [] loadEnvConfigureFail "apple-notes-importer" []).st = []
    ∧ (managerLoad [] loadEnvConfigureFail "apple-notes-importer" []).events =
        [ProcEvent.spawn, ProcEvent.kill] :=
  ⟨⟨rfl, rfl, rfl⟩,
    (manager_load_atomic_on_failure [] loadEnvConfigureFail "apple-notes-importer" []
      "/plugins/reorg-plugin-apple-notes-importer" rfl rfl rfl).1,
    (manager_load_atomic_on_failure [] loadEnvConfigureFail "apple-notes-importer" []
      "/plugins/reorg-plugin-apple-notes-importer" rfl rfl rfl).2.2⟩

/-! ### Daemon scheduling (internal/daemon/daemon.go) -/

/-- Per-plugin daemon configuration (`daemon.PluginConfig`). -/
structure DPluginConfig where
  enabled : Bool
  schedule : String
  config : List (String × String)
deriving DecidableEq, Repr

/-- The `ExecuteParams` a scheduled cron fire uses: `Daemon.executePlugin`
always calls `Manager.Execute` with `DryRun: false` and no extra parameters. -/
def executePluginParams : ExecuteParams := ⟨false, []⟩

/-- A registered cron job: plugin name, cron expression, and the parameters
its fire action passes to `Execute`. -/
structure CronJob where
  name : String
  schedule : String
  fireParams : ExecuteParams
deriving DecidableEq, Repr

/-- Outcomes of the fallible steps of `Daemon.schedulePlugin`: manifest fetch
(`Manager.GetManifest`), plugin load, and cron registration (`AddFunc`, which
fails on an unparsable expression). -/
structure SchedEnv where
  getManifest : Except String Manifest
  load : Except String Unit
  addFunc : String → Except String Unit

/-- Result of `Daemon.schedulePlugin` for one plugin: the registered jobs
(none or one), whether the plugin was loaded, and the returned error. -/
structure SchedOut where
  jobs : List CronJob
  loaded : Bool
  res : Except String Unit
deriving Repr

/-- Model of `Daemon.schedulePlugin`: the effective schedule is the config
override when non-empty, else the manifest default; an empty effective
schedule skips the plugin without loading it; otherwise the plugin is loaded
and one cron entry firing `executePlugin` (dry-run false) is registered. -/
def schedulePlugin (env : SchedEnv) (name : String) (cfg : DPluginConfig) : SchedOut :=
  match env.getManifest with
  | Except.error e => ⟨[], false, Except.error ("failed to get manifest: " ++ e)⟩
  | Except.ok manifest =>
    let schedule := if cfg.schedule ≠ "" then cfg.schedule else manifest.schedule
    if schedule = "" then ⟨[], false, Except.ok ()⟩
    else
      match env.load with
      | Except.error e => ⟨[], false, Except.error ("failed to load plugin: " ++ e)⟩
      | Except.ok _ =>
        match env.addFunc schedule with
        | Except.error e => ⟨[], true, Except.error ("failed to schedule: " ++ e)⟩
        | Except.ok _ => ⟨[⟨name, schedule, executePluginParams⟩], true, Except.ok ()⟩

/-- Model of the scheduling sweep of `Daemon.Start`: for each discovered
plugin, the configured entry (defaulting to enabled with no override) is
consulted; disabled plugins are skipped; each scheduled plugin contributes
its registered jobs. Per-plugin failures are logged and skipped, which the
job list already reflects (a failed `schedulePlugin` registers no job). -/
def daemonStart (envs : String → SchedEnv) (cfgs : String → Option DPluginConfig)
    (available : List String) : List CronJob :=
  (available.map fun name =>
    let cfg := (cfgs name).getD ⟨true, "", []⟩
    if cfg.enabled then (schedulePlugin (envs name) name cfg).jobs else []).flatten

theorem schedulePlugin_jobs_names (env : SchedEnv) (name : String) (cfg : DPluginConfig) :
    ∀ job ∈ (schedulePlugin env name cfg).jobs, job.name = name ∧ job.fireParams = ⟨false, []⟩ := by
  unfold schedulePlugin
  rcases hm : env.getManifest with e | manifest
  · intro job hj
    exact absurd hj (List.not_mem_nil job)
  · dsimp only
    by_cases hs : (if cfg.schedule ≠ "" then cfg.schedule else manifest.schedule) = ""
    · rw [if_pos hs]
      intro job hj
      exact absurd hj (List.not_mem_nil job)
    · rw [if_neg hs]
      rcases hl : env.load with e | u
      · intro job hj
        exact absurd hj (List.not_mem_nil job)
      · rcases ha : env.addFunc (if cfg.schedule ≠ "" then cfg.schedule else manifest.schedule)
            with e | u2
        · intro job hj
          exact absurd hj (List.not_mem_nil job)
        · intro job hj
          rcases List.mem_cons.mp hj with hj | hj
          · subst hj
            exact ⟨rfl, rfl⟩
          · exact absurd hj (List.not_mem_nil job)

theorem schedulePlugin_jobs_le_one (env : SchedEnv) (name : String) (cfg : DPluginConfig) :
    (schedulePlugin env name cfg).jobs.length ≤ 1 := by
  unfold schedulePlugin
  rcases hm : env.getManifest with e | manifest
  · simp
  · dsimp only
    by_cases hs : (if cfg.schedule ≠ "" then cfg.schedule else manifest.schedule) = ""
    · rw [if_pos hs]
      simp
    · rw [if_neg hs]
      rcases hl : env.load with e | u
      · simp
      · rcases ha : env.addFunc (if cfg.schedule ≠ "" then cfg.schedule else manifest.schedule)
            with e | u2
        · simp
        · simp

theorem daemonStart_count_le_one (envs : String → SchedEnv)
    (cfgs : String → Option DPluginConfig) (available : List String) (name : String)
    (hnd : available.Nodup) :
    (daemonStart envs cfgs available).countP (fun job => job.name == name) ≤ 1 := by
  induction available with
  | nil => simp [daemonStart]
  | cons hd tl ih =>
    have hnd2 := List.nodup_cons.mp hnd
    have ihtl := ih hnd2.2
    unfold daemonStart at ihtl ⊢
    rw [List.map_cons, List.flatten_cons, List.countP_append]
    dsimp only at ihtl ⊢
    by_cases hname : hd = name
    · subst hname
      have htl0 : ((tl.map fun n =>
          let cfg := (cfgs n).getD ⟨true, "", []⟩
          if cfg.enabled then (schedulePlugin (envs n) n cfg).jobs else []).flatten).countP
            (fun job => job.name == hd) = 0 := by
        rw [List.countP_eq_zero]
        intro job hj
        rw [List.mem_flatten] at hj
        obtain ⟨l, hl, hjl⟩ := hj
        rw [List.mem_map] at hl
        obtain ⟨n, hn, hnl⟩ := hl
        by_cases he : ((cfgs n).getD ⟨true, "", []⟩).enabled
        · rw [if_pos he] at hnl
          rw [← hnl] at hjl
          have := (schedulePlugin_jobs_names (envs n) n _ job hjl).1
          have hne : n ≠ hd := fun hc => hnd2.1 (hc ▸ hn)
          simp [this, hne]
        · rw [if_neg he] at hnl
          rw [← hnl] at hjl
          exact absurd hjl (List.not_mem_nil job)
      rw [htl0]
      have hhd : (if ((cfgs hd).getD ⟨true, "", []⟩).enabled then
          (schedulePlugin (envs hd) hd ((cfgs hd).getD ⟨true, "", []⟩)).jobs
          else []).countP (fun job => job.name == hd) ≤ 1 := by
        by_cases he : ((cfgs hd).getD ⟨true, "", []⟩).enabled
        · rw [if_pos he]
          calc _ ≤ (schedulePlugin (envs hd) hd ((cfgs hd).getD ⟨true, "", []⟩)).jobs.length :=
                List.countP_le_length _
            _ ≤ 1 := schedulePlugin_jobs_le_one _ _ _
        · rw [if_neg he]
          simp
      omega
    · have hhd0 : (if ((cfgs hd).getD ⟨true, "", []⟩).enabled then
          (schedulePlugin (envs hd) hd ((cfgs hd).getD ⟨true, "", []⟩)).jobs
          else []).countP (fun job => job.name == name) = 0 := by
        rw [List.countP_eq_zero]
        intro job hj
        by_cases he : ((cfgs hd).getD ⟨true, "", []⟩).enabled
        · rw [if_pos he] at hj
          have := (schedulePlugin_jobs_names (envs hd) hd _ job hj).1
          simp [this, hname]
        · rw [if_neg he] at hj
          exact absurd hj (List.not_mem_nil job)
      rw [hhd0]
      omega

/-- C9: for a discovered enabled plugin the daemon registers at most one cron
job; its expression is the config override when that is non-empty, else the
manifest schedule; an empty effective schedule means the plugin is not loaded
and gets no job; and every registered fire invokes Execute with dry-run
false. -/
theorem daemon_schedule_precedence (env : SchedEnv) (name : String) (cfg : DPluginConfig)
    (manifest : Manifest)
    (hm : env.getManifest = Except.ok manifest) :
    (cfg.schedule ≠ "" → env.load = Except.ok () → env.addFunc cfg.schedule = Except.ok () →
        (schedulePlugin env name cfg).jobs = [⟨name, cfg.schedule, executePluginParams⟩]
        ∧ (schedulePlugin env name cfg).loaded = true)
    ∧ (cfg.schedule = "" → manifest.schedule ≠ "" → env.load = Except.ok () →
        env.addFunc manifest.schedule = Except.ok () →
        (schedulePlugin env name cfg).jobs = [⟨name, manifest.schedule, executePluginParams⟩]
        ∧ (schedulePlugin env name cfg).loaded = true)
    ∧ (cfg.schedule = "" → manifest.schedule = "" →
        (schedulePlugin env name cfg).jobs = [] ∧ (schedulePlugin env name cfg).loaded = false)
    ∧ (schedulePlugin env name cfg).jobs.length ≤ 1
    ∧ (∀ job ∈ (schedulePlugin env name cfg).jobs, job.fireParams.dryRun = false)
    ∧ executePluginParams.dryRun = false
    ∧ (∀ (envs : String → SchedEnv) (cfgs : String → Option DPluginConfig)
        (available : List String), available.Nodup →
        (daemonStart envs cfgs available).countP (fun job => job.name == name) ≤ 1) := by
  refine ⟨?_, ?_, ?_, schedulePlugin_jobs_le_one env name cfg, ?_, rfl, ?_⟩
  · intro hov hload haddf
    unfold schedulePlugin
    rw [hm]
    dsimp only
    rw [if_pos hov, if_neg hov, hload, haddf]
    exact ⟨rfl, rfl⟩
  · intro hov hman hload haddf
    unfold schedulePlugin
    rw [hm]
    dsimp only
    have h1 : ¬(cfg.schedule ≠ "") := by simp [hov]
    rw [if_neg h1, if_neg hman, hload, haddf]
    exact ⟨rfl, rfl⟩
  · intro hov hman
    unfold schedulePlugin
    rw [hm]
    dsimp only
    have h1 : ¬(cfg.schedule ≠ "") := by simp [hov]
    rw [if_neg h1, if_pos hman]
    exact ⟨rfl, rfl⟩
  · intro job hj
    rw [(schedulePlugin_jobs_names env name cfg job hj).2]
  · exact fun envs cfgs available hnd => daemonStart_count_le_one envs cfgs available name hnd

/-- Fixture scheduling environment: manifest fetch returns the Apple Notes
manifest (default schedule every 15 minutes), load and cron registration
succeed. -/
def schedEnvApple : SchedEnv :=
  ⟨Except.ok loadedApple.manifest, Except.ok (), fun _ => Except.ok ()⟩

theorem daemon_schedule_precedence_witness :
    (schedEnvApple.getManifest = Except.ok loadedApple.manifest
      ∧ loadedApple.manifest.schedule = "0 */15 * * * *")
    ∧ (schedulePlugin schedEnvApple "apple-notes-importer" ⟨true, "", []⟩).jobs =
        [⟨"apple-notes-importer", "0 */15 * * * *", executePluginParams⟩]
    ∧ (schedulePlugin schedEnvApple "apple-notes-importer" ⟨true, "0 0 12 * * *", []⟩).jobs =
        [⟨"apple-notes-importer", "0 0 12 * * *", executePluginParams⟩] :=
  ⟨⟨rfl, rfl⟩,
    ((daemon_schedule_precedence schedEnvApple "apple-notes-importer" ⟨true, "", []⟩
      loadedApple.manifest rfl).2.1 rfl (by decide) rfl rfl).1,
    ((daemon_schedule_precedence schedEnvApple "apple-notes-importer" ⟨true, "0 0 12 * * *", []⟩
      loadedApple.manifest rfl).1 (by decide) rfl rfl).1⟩
